import Mathlib

/-!
# cor::notlisp, a shallow embedding of `include/cor/notlisp.hpp`

Conventions of the embedding.

* `std::string` is a Lean `String`; the C library parsers work on its
  characters (`String.data`). Every character the parsers consume is
  ASCII, so counting characters and counting bytes agree wherever a
  consumed length is compared with `s.size()`.
* `expr_ptr` (a `std::shared_ptr<Expr>`) is `Option Expr`: `none` is the
  null pointer. Pointer identity is value equality.
* `env_ptr` is a shared pointer to a mutable `Env`; every operation that
  can reach the environment takes the current `Env` and returns the new
  one. The pointer itself is taken to be non-null.
* A `std::function` stored in a `LambdaExpr` cannot be a field of `Expr`
  (it takes expressions as arguments), so a `LambdaExpr` stores a handle
  and the host callables live in a table `Host`, passed to whatever calls
  them.
* Dereferencing a null or past-the-end pointer and `top()` of an empty
  stack are undefined behaviour: `eval` returns `none` there and the
  interpreter operations return `Outcome.undefined`.
* Writes to `std::cerr` are not part of the state.
-/

namespace cor
namespace notlisp

/-- The `enum Expr::Type`. -/
inductive ExprType where
  | Symbol
  | Keyword
  | String
  | Function
  | Nil
  | Object
  | Integer
  | Real
  deriving DecidableEq, Repr

/-- The value `strtod` returns, kept as the exact value of the literal it
read: `num neg m b e` stands for the `double` nearest to
`(-1)^neg * m * b^e`. Rounding to binary64 is outside the model. -/
inductive double where
  | num (neg : Bool) (mant : Nat) (base : Nat) (exp : Int)
  | inf (neg : Bool)
  | nan (neg : Bool) (tag : List Char)
  deriving DecidableEq, Repr

/-- The anonymous union of `Expr`: a `long` (64-bit, two's complement,
kept as an `Int`) or a `double`. -/
inductive Pod where
  | i_ (v : Int)
  | r_ (v : double)
  deriving DecidableEq, Repr

/-- The concrete subclasses of `Expr` with their constructor arguments:
`BasicExpr<T>(s)`, `PodExpr(v)`, `SymbolExpr(s)`, `LambdaExpr(name, fn)`
(`fn` a handle into the host table) and `ObjectExpr(s)`. -/
inductive Expr where
  | BasicExpr (T : ExprType) (s : String)
  | PodExpr (v : Pod)
  | SymbolExpr (s : String)
  | LambdaExpr (name : String) (fn : Nat)
  | ObjectExpr (s : String)
  deriving DecidableEq, Repr

/-- A `std::shared_ptr<Expr>`; `none` is the null pointer. -/
abbrev expr_ptr := Option Expr

/-- A `std::list<expr_ptr>`. -/
abbrev expr_list_type := List expr_ptr

/-- The class `Env`: `dict` is the `std::unordered_map<std::string, expr_ptr>`,
kept as an association list in which the first entry of a key is the
binding and later entries of the same key are dead. -/
structure Env where
  dict : List (String × expr_ptr)
  deriving DecidableEq, Repr

/-- `Expr::type()`: the tag the constructor of the subclass stored. -/
def Expr.type : Expr → ExprType
  | .BasicExpr T _ => T
  | .PodExpr (.i_ _) => ExprType.Integer
  | .PodExpr (.r_ _) => ExprType.Real
  | .SymbolExpr _ => ExprType.Symbol
  | .LambdaExpr _ _ => ExprType.Function
  | .ObjectExpr _ => ExprType.Object

/-- `Expr::value()`: the string member `s_`, empty for a `PodExpr`. -/
def Expr.value : Expr → String
  | .BasicExpr _ s => s
  | .PodExpr _ => ""
  | .SymbolExpr s => s
  | .LambdaExpr name _ => name
  | .ObjectExpr s => s

/-- `mk_basic_expr<T>(s)`. -/
def mk_basic_expr (T : ExprType) (s : String) : expr_ptr :=
  some (Expr.BasicExpr T s)

/-- `mk_string(s)`. -/
def mk_string (s : String) : expr_ptr :=
  mk_basic_expr ExprType.String s

/-- `mk_keyword(s)`: the source instantiates `mk_basic_expr<Expr::String>`. -/
def mk_keyword (s : String) : expr_ptr :=
  mk_basic_expr ExprType.String s

/-- `mk_nil()`. -/
def mk_nil : expr_ptr :=
  mk_basic_expr ExprType.Nil ""

/-- `mk_value(v)` for `v` a `long` or a `double`. -/
def mk_value (v : Pod) : expr_ptr :=
  some (Expr.PodExpr v)

/-- `mk_symbol(s)`. -/
def mk_symbol (s : String) : expr_ptr :=
  some (Expr.SymbolExpr s)

/-- `mk_lambda(name, fn)`. -/
def mk_lambda (name : String) (fn : Nat) : expr_ptr :=
  some (Expr.LambdaExpr name fn)

/-- `new ObjectExpr(s)` held in an `expr_ptr`. -/
def mk_object (s : String) : expr_ptr :=
  some (Expr.ObjectExpr s)

/-- `dict.find(k)`: the value bound to `k`, if `k` is a key. -/
def Env.find (env : Env) (k : String) : Option expr_ptr :=
  env.dict.lookup k

/-- `dict[k]` of `std::unordered_map`: the mapped value when `k` is a key;
otherwise `k` is inserted with a default-constructed (null) `expr_ptr`,
which is returned. -/
def Env.index (env : Env) (k : String) : expr_ptr × Env :=
  match env.dict.lookup k with
  | some v => (v, env)
  | none => (none, { dict := env.dict ++ [(k, none)] })

/-- The virtual `do_eval(env, self)`: `SymbolExpr` returns
`env->dict[value()]`, every other class returns `self`. -/
def Expr.do_eval : Expr → Env → expr_ptr → expr_ptr × Env
  | .SymbolExpr s, env, _ => env.index s
  | .BasicExpr _ _, env, self => (self, env)
  | .PodExpr _, env, self => (self, env)
  | .LambdaExpr _ _, env, self => (self, env)
  | .ObjectExpr _, env, self => (self, env)

/-- `eval(env, src)` is `src->do_eval(env, src)`; `none` when `src` is
null (the call dereferences it). -/
def eval (env : Env) (src : expr_ptr) : Option (expr_ptr × Env) :=
  match src with
  | none => none
  | some e => some (e.do_eval env src)

/-- The list overload of `eval`: `std::transform` over `src` from front to
back with `eval(env, p)`, results appended in that order. -/
def eval_list (env : Env) : expr_list_type → Option (expr_list_type × Env)
  | [] => some ([], env)
  | p :: ps =>
    match eval env p with
    | none => none
    | some (v, env1) =>
      match eval_list env1 ps with
      | none => none
      | some (vs, env2) => some (v :: vs, env2)

/-! ### The C library parsers used by `default_atom_convert` -/

/-- `LONG_MAX` of a 64-bit `long`. -/
def LONG_MAX : Int := 2 ^ 63 - 1

/-- `LONG_MIN` of a 64-bit `long`. -/
def LONG_MIN : Int := -(2 ^ 63)

/-- `s.c_str()` as the C parsers see it: the characters before the first
NUL. -/
def c_str (s : String) : List Char :=
  s.data.takeWhile (fun c => c != '\x00')

/-- `isspace` in the "C" locale. -/
def isspace (c : Char) : Bool :=
  c == ' ' || c == '\t' || c == '\n' || c == '\x0b' || c == '\x0c' || c == '\r'

/-- `isxdigit`. -/
def isxdigit (c : Char) : Bool :=
  c.isDigit || (97 ≤ c.toNat && c.toNat ≤ 102) || (65 ≤ c.toNat && c.toNat ≤ 70)

/-- The value of one digit character in a base up to 16. -/
def digit_value (c : Char) : Nat :=
  if c.isDigit then c.toNat - 48
  else if 97 ≤ c.toNat then c.toNat - 87
  else c.toNat - 55

/-- The number a digit sequence denotes in base `b`, most significant
digit first. -/
def digits_value (b : Nat) (cs : List Char) : Nat :=
  cs.foldl (fun a c => a * b + digit_value c) 0

/-- The optional sign of `strtol` and `strtod`: whether it is a minus, how
many characters it takes, and what follows. -/
def strto_sign : List Char → Bool × Nat × List Char
  | '-' :: r => (true, 1, r)
  | '+' :: r => (false, 1, r)
  | r => (false, 0, r)

/-- `strtol(cstr, &endptr, 10)`: the value returned and `endptr - cstr`.
White space is skipped, then an optional sign, then decimal digits; with no
digit there is no conversion (value 0, `endptr == cstr`); a value out of
range is `LONG_MAX` or `LONG_MIN` and all the digits are still consumed. -/
def strtol (cstr : List Char) : Int × Nat :=
  let ws := cstr.takeWhile isspace
  let sg := strto_sign (cstr.dropWhile isspace)
  let ds := sg.2.2.takeWhile Char.isDigit
  if ds = [] then (0, 0)
  else
    let v : Int := digits_value 10 ds
    (if sg.1 then max (-v) LONG_MIN else min v LONG_MAX,
      ws.length + sg.2.1 + ds.length)

/-- The digits of a `strtod` number: a non-empty sequence of digits
(`isd`) that may contain one radix character. Gives the digits before and
after the radix character, the length of the whole and what follows. -/
def strtod_mantissa (isd : Char → Bool) (cs : List Char) :
    Option (List Char × List Char × Nat × List Char) :=
  let ip := cs.takeWhile isd
  match cs.dropWhile isd with
  | '.' :: r =>
    let fp := r.takeWhile isd
    if ip = [] ∧ fp = [] then none
    else some (ip, fp, ip.length + 1 + fp.length, r.dropWhile isd)
  | r => if ip = [] then none else some (ip, [], ip.length, r)

/-- The optional exponent part of a `strtod` number: the marker (`e`, `E`
or `p`, `P`), an optional sign and a non-empty decimal digit sequence.
Gives the exponent and the length of the part, `(0, 0)` when there is
none. -/
def strtod_exponent (marker : Char → Bool) : List Char → Int × Nat
  | [] => (0, 0)
  | m :: r =>
    if marker m then
      let sg := strto_sign r
      let ds := sg.2.2.takeWhile Char.isDigit
      if ds = [] then (0, 0)
      else
        let v : Int := digits_value 10 ds
        (if sg.1 then -v else v, 1 + sg.2.1 + ds.length)
    else (0, 0)

/-- A character of the `n-char-sequence` of `NAN(...)`. -/
def is_nchar (c : Char) : Bool :=
  c.isAlphanum || c == '_'

/-- The hexadecimal form of `strtod`: `0x` or `0X`, hexadecimal digits with
an optional radix character, an optional binary exponent. Gives the
mantissa, the power of two and the length, `none` when the text is not of
that form. -/
def strtod_hex : List Char → Option (Nat × Int × Nat)
  | '0' :: x :: r =>
    if x == 'x' || x == 'X' then
      match strtod_mantissa isxdigit r with
      | none => none
      | some (ip, fp, n, rest) =>
        let ex := strtod_exponent (fun c => c == 'p' || c == 'P') rest
        some (digits_value 16 (ip ++ fp), ex.1 - 4 * (fp.length : Int), 2 + n + ex.2)
    else none
  | _ => none

/-- `strtod(cstr, &endptr)` in the "C" locale: the value returned and
`endptr - cstr`. White space is skipped, then an optional sign, then the
longest of: `INF`, `INFINITY`, `NAN`, `NAN(n-char-sequence)` (case ignored),
a hexadecimal number, a decimal number. With none of these there is no
conversion (value 0, `endptr == cstr`). -/
def strtod (cstr : List Char) : double × Nat :=
  let ws := cstr.takeWhile isspace
  let sg := strto_sign (cstr.dropWhile isspace)
  let neg := sg.1
  let pre := ws.length + sg.2.1
  let r := sg.2.2
  let low := r.map Char.toLower
  if ['i', 'n', 'f', 'i', 'n', 'i', 't', 'y'].isPrefixOf low then (double.inf neg, pre + 8)
  else if ['i', 'n', 'f'].isPrefixOf low then (double.inf neg, pre + 3)
  else if ['n', 'a', 'n'].isPrefixOf low then
    match r.drop 3 with
    | '(' :: r3 =>
      match r3.dropWhile is_nchar with
      | ')' :: _ =>
        (double.nan neg (r3.takeWhile is_nchar), pre + 3 + 1 + (r3.takeWhile is_nchar).length + 1)
      | _ => (double.nan neg [], pre + 3)
    | _ => (double.nan neg [], pre + 3)
  else
    match strtod_hex r with
    | some (m, e, n) => (double.num neg m 2 e, pre + n)
    | none =>
      match strtod_mantissa Char.isDigit r with
      | none => (double.num false 0 10 0, 0)
      | some (ip, fp, n, rest) =>
        let ex := strtod_exponent (fun c => c == 'e' || c == 'E') rest
        (double.num neg (digits_value 10 (ip ++ fp)) 10 (ex.1 - (fp.length : Int)), pre + n + ex.2)

/-- `default_atom_convert(s)`: a leading `:` gives `mk_keyword(s.substr(1))`;
otherwise the `convert` lambda runs on `s.c_str()` and `s.size()`: the
`long` when `strtol` stops at the end of the string, else the `double` when
`strtod` stops there, else `mk_symbol(s)`. -/
def default_atom_convert (s : String) : expr_ptr :=
  match s.data with
  | ':' :: rest => mk_keyword (String.mk rest)
  | _ =>
    let len := s.data.length
    let i := strtol (c_str s)
    if i.2 = len then mk_value (Pod.i_ i.1)
    else
      let f := strtod (c_str s)
      if f.2 = len then mk_value (Pod.r_ f.1)
      else mk_symbol s

/-! ### The interpreter -/

/-- What a call can throw: a `cor::Error` with its message; an exception
of a class `cls` derived from `cor::Error`, whose `cor::Error` part holds
the message `what`; a `std::logic_error`; or any other exception that is not
a `cor::Error`, each with its message. -/
inductive Exn where
  | cor_Error (what : String)
  | derived (cls : String) (what : String)
  | logic_error (what : String)
  | other (what : String)
  deriving DecidableEq, Repr

/-- How a call of a host callable ends: it returns `res`, or it throws
`e`; either way it leaves the shared environment as `env`. -/
inductive HostResult where
  | ret (res : expr_ptr) (env : Env)
  | raise (e : Exn) (env : Env)
  deriving DecidableEq, Repr

/-- A `lambda_type`: `std::function<expr_ptr (env_ptr, expr_list_type&)>`. -/
abbrev lambda_type := Env → expr_list_type → HostResult

/-- The host callables, by the handle a `LambdaExpr` stores. -/
abbrev Host := Nat → lambda_type

/-- The members of the class `Interpreter`. The top of `stack` is the head
of the list. -/
structure Interpreter where
  env : Env
  stack : List expr_list_type
  convert_atom : String → expr_ptr

/-- How a member function of `Interpreter` ends: normally, leaving the
interpreter as `it`; by throwing `e`, leaving it as `it`; or in undefined
behaviour. -/
inductive Outcome where
  | ok (it : Interpreter)
  | threw (e : Exn) (it : Interpreter)
  | undefined

/-- The constructor `Interpreter(env, atom_converter)`: the stack holds one
empty list. -/
def Interpreter.new (env : Env) (atom_converter : String → expr_ptr) : Interpreter :=
  { env := env, stack := [[]], convert_atom := atom_converter }

/-- `on_list_begin()`: `stack.push(expr_list_type())`. -/
def Interpreter.on_list_begin (it : Interpreter) : Outcome :=
  Outcome.ok { it with stack := [] :: it.stack }

/-- What leaves the `try` block of `on_list_end` when the call throws `e`:
`catch (cor::Error const &e) { ...; throw e; }` throws a copy of static
type `cor::Error`, so a `cor::Error` goes on as it is and an exception of a
derived class goes on as the plain `cor::Error` of its message; an exception
that is not a `cor::Error` is not caught. -/
def catch_rethrow : Exn → Exn
  | Exn.cor_Error what => Exn.cor_Error what
  | Exn.derived _ what => Exn.cor_Error what
  | Exn.logic_error what => Exn.logic_error what
  | Exn.other what => Exn.other what

/-- `on_list_end()`, statement by statement: `t` is `stack.top()`, `expr`
its first element, `p` is `eval(env, expr)`; a null `p` throws the
`cor::Error`, a `p` whose type is not `Function` throws the
`std::logic_error`; then the head is popped off `t`, the rest of `t` is
evaluated and `p` is called on it; an exception of the call leaves through
the `catch` block (`catch_rethrow`); otherwise `stack.pop()` and
`stack.top().push_back(res)`. -/
def Interpreter.on_list_end (host : Host) (it : Interpreter) : Outcome :=
  match it.stack with
  | [] => Outcome.undefined
  | [] :: _ => Outcome.undefined
  | (expr :: args) :: below =>
    match eval it.env expr with
    | none => Outcome.undefined
    | some (none, env1) =>
      Outcome.threw
        (Exn.cor_Error ("Got null evaluating "
          ++ (match expr with | some e => e.value | none => "")
          ++ ", expecting function"))
        { it with env := env1 }
    | some (some p, env1) =>
      if p.type ≠ ExprType.Function then
        Outcome.threw (Exn.logic_error "Not a function") { it with env := env1 }
      else
        match eval_list env1 args with
        | none => Outcome.undefined
        | some (params, env2) =>
          match p with
          | Expr.LambdaExpr _ fn =>
            match host fn env2 params with
            | HostResult.raise e env3 =>
              Outcome.threw (catch_rethrow e) { it with env := env3, stack := args :: below }
            | HostResult.ret res env3 =>
              match below with
              | [] => Outcome.undefined
              | top :: rest =>
                Outcome.ok { it with env := env3, stack := (top ++ [res]) :: rest }
          | _ => Outcome.undefined

/-- `on_comment(s)`: the body is empty. -/
def Interpreter.on_comment (it : Interpreter) (_s : String) : Outcome :=
  Outcome.ok it

/-- `on_string(s)`: `stack.top().push_back(mk_string(s))`. -/
def Interpreter.on_string (it : Interpreter) (s : String) : Outcome :=
  match it.stack with
  | [] => Outcome.undefined
  | t :: below => Outcome.ok { it with stack := (t ++ [mk_string s]) :: below }

/-- `on_atom(s)`: `stack.top().push_back(convert_atom(s))`. -/
def Interpreter.on_atom (it : Interpreter) (s : String) : Outcome :=
  match it.stack with
  | [] => Outcome.undefined
  | t :: below => Outcome.ok { it with stack := (t ++ [it.convert_atom s]) :: below }

/-- `results()`: `stack.top()`, `none` when the stack is empty. -/
def Interpreter.results (it : Interpreter) : Option expr_list_type :=
  it.stack.head?

/-- The events a tokenizer sends to the interpreter. -/
inductive Token where
  | list_begin
  | list_end
  | comment (s : String)
  | string (s : String)
  | atom (s : String)
  deriving DecidableEq, Repr

/-- The member function a tokenizer calls for one event. -/
def Interpreter.on_token (host : Host) (it : Interpreter) : Token → Outcome
  | Token.list_begin => it.on_list_begin
  | Token.list_end => it.on_list_end host
  | Token.comment s => it.on_comment s
  | Token.string s => it.on_string s
  | Token.atom s => it.on_atom s

/-- A token stream fed to the interpreter, one event after the other; the
first event that does not end normally ends the run. -/
def Interpreter.feed (host : Host) (it : Interpreter) : List Token → Outcome
  | [] => Outcome.ok it
  | tok :: toks =>
    match it.on_token host tok with
    | Outcome.ok it1 => Interpreter.feed host it1 toks
    | o => o

/-! ### The argument accessor -/

/-- How a call of a host function ends when the function works on a state
`σ` (the `dst` of a conversion, what a closure has captured): it returns
`a`, or it throws `e`; either way it leaves the state as `s`. -/
inductive Call (σ α : Type) where
  | ret (a : α) (s : σ)
  | raise (e : Exn) (s : σ)

/-- The class `ListAccessor`: the iterators `cur` and `end` of one list,
kept as the elements from `cur` up to `end`. -/
structure ListAccessor where
  cur : expr_list_type
  deriving DecidableEq, Repr

/-- The constructor `ListAccessor(params)`: `cur` is `params.begin()`. -/
def ListAccessor.new (params : expr_list_type) : ListAccessor :=
  { cur := params }

/-- How a member function of `ListAccessor` (or `rest`, `rest_casted`)
ends: it returns `a` or throws `e`, leaving the accessor as `src` and the
state of the host function as `s`. -/
inductive Access (σ α : Type) where
  | ret (a : α) (src : ListAccessor) (s : σ)
  | raise (e : Exn) (src : ListAccessor) (s : σ)

/-- `to_string(expr, dst)`: throws on a null `expr` and on one whose type
is not `String`, otherwise assigns `expr->value()` to `dst`. -/
def to_string (expr : expr_ptr) (dst : String) : Call String Unit :=
  match expr with
  | none => Call.raise (Exn.cor_Error "to_string: Null") dst
  | some e =>
    if e.type ≠ ExprType.String then
      Call.raise (Exn.cor_Error (e.value ++ " is not string")) dst
    else Call.ret () e.value

/-- `required(fn, dst)`: throws when `cur == end`; otherwise `fn(*cur++, dst)`,
the cursor being advanced before `fn` runs. -/
def ListAccessor.required {T : Type} (src : ListAccessor)
    (fn : expr_ptr → T → Call T Unit) (dst : T) : Access T Unit :=
  match src.cur with
  | [] => Access.raise (Exn.cor_Error "Required param is absent") src dst
  | x :: xs =>
    match fn x dst with
    | Call.ret _ d => Access.ret () { cur := xs } d
    | Call.raise e d => Access.raise e { cur := xs } d

/-- `optional(fn)`: `(cur != end) ? fn(*cur++) : false`. -/
def ListAccessor.optional {σ : Type} (src : ListAccessor)
    (fn : expr_ptr → σ → Call σ Bool) (s : σ) : Access σ Bool :=
  match src.cur with
  | [] => Access.ret false src s
  | x :: xs =>
    match fn x s with
    | Call.ret b s1 => Access.ret b { cur := xs } s1
    | Call.raise e s1 => Access.raise e { cur := xs } s1

/-- The loop of `rest`, by recursion on the elements that remain: one
round is one call of `optional`, and the loop goes on while that returns
true. -/
def rest_loop {σ : Type} (fn : expr_ptr → σ → Call σ Bool) :
    expr_list_type → σ → Access σ Unit
  | [], s => Access.ret () { cur := [] } s
  | x :: xs, s =>
    match fn x s with
    | Call.ret true s1 => rest_loop fn xs s1
    | Call.ret false s1 => Access.ret () { cur := xs } s1
    | Call.raise e s1 => Access.raise e { cur := xs } s1

/-- `rest(src, fn)`: `while (src.optional(fn)) {}`. -/
def rest {σ : Type} (src : ListAccessor) (fn : expr_ptr → σ → Call σ Bool) (s : σ) :
    Access σ Unit :=
  rest_loop fn src.cur s

/-- `std::dynamic_pointer_cast<T>(p)`, the class `T` given by the values
that are instances of it: `p` when it is non-null and an instance, null
otherwise. -/
def dynamic_pointer_cast (T : Expr → Bool) (p : expr_ptr) : expr_ptr :=
  match p with
  | none => none
  | some e => if T e then some e else none

/-- The consumer `rest_casted<T>` hands to `rest`: cast `p`, throw when the
cast is null, else call `fn` on it and return `!!res`. -/
def casted_consumer {σ : Type} (T : Expr → Bool) (fn : Expr → σ → Call σ Unit) :
    expr_ptr → σ → Call σ Bool := fun p s =>
  match dynamic_pointer_cast T p with
  | none => Call.raise (Exn.cor_Error "Can't be casted") s
  | some res =>
    match fn res s with
    | Call.ret _ s1 => Call.ret true s1
    | Call.raise e s1 => Call.raise e s1

/-- `rest_casted<T>(src, fn)`. -/
def rest_casted {σ : Type} (T : Expr → Bool) (src : ListAccessor)
    (fn : Expr → σ → Call σ Unit) (s : σ) : Access σ Unit :=
  rest src (casted_consumer T fn) s

end notlisp

/-! ## cor::udevpp, `src/udev-util.cpp` -/

namespace udevpp

/-- What `is_keyboard` uses of a `Device`: `attr(name)`, a C string that is
null (`none`) when the device has no such attribute. -/
structure Device where
  attr : String → Option String

/-- What `is_keyboard` calls and this file does not define, over the state
`σ` of a `std::istringstream`: `cor::split(str, sep, out)` as the list of
the strings it writes to `out`; the string `std::remove` leaves in the
`k`-th slot behind the elements it kept; `input.str(s); input >> v` as the
value read and the stream after it; the stream as constructed, in
hexadecimal mode. -/
structure Lib (σ : Type) where
  split : String → String → List String
  leftover : Nat → String
  extract : σ → String → Nat × σ
  input : σ

/-- `KEY_Q` of `linux/input.h`. -/
def KEY_Q : Nat := 16

/-- `KEY_P` of `linux/input.h`. -/
def KEY_P : Nat := 25

/-- `sizeof(unsigned long)` on a 64-bit target. -/
def sizeof_unsigned_long : Nat := 8

/-- `std::remove(first, last, "")` on a list, its result thrown away: the
strings that are not empty move to the front in their order, the length of
the list stays, and the slots behind hold left-over strings. -/
def std_remove {σ : Type} (lib : Lib σ) (l : List String) : List String :=
  let kept := l.filter (fun x => x != "")
  kept ++ (List.range (l.length - kept.length)).map lib.leftover

/-- The loop over `caps_strs`: each round reads `v` from the string, has
`is_ok` false, and returns false from the function (`none`) when `is_ok`
is false; otherwise `v` is pushed on `caps`. -/
def read_caps {σ : Type} (lib : Lib σ) : σ → List String → Option (List Nat)
  | _, [] => some []
  | input, s :: ss =>
    let r := lib.extract input s
    let is_ok := false
    if !is_ok then none
    else (read_caps lib r.2 ss).map (fun caps => r.1 :: caps)

/-- The conversion of `caps.size() - (i / sizeof(unsigned long))`, an
unsigned 64-bit value, to `int`. -/
def to_int (size q : Nat) : Int :=
  let u : Nat := (size + 2 ^ 64 - q % 2 ^ 64) % 2 ^ 64
  let low : Nat := u % 2 ^ 32
  if low < 2 ^ 31 then (low : Int) else (low : Int) - 2 ^ 32

/-- The loop `for (i = KEY_Q; i <= KEY_P; ++i)`, over the values of `i`
still to come: it breaks when `pos` is negative and counts the `i` whose bit
`i % sizeof(unsigned long)` of `caps[pos]` is set; `none` when `pos` is not
an index of `caps`. -/
def count_keys (caps : List Nat) : List Nat → Nat → Option Nat
  | [], count => some count
  | i :: more, count =>
    let pos := to_int caps.length (i / sizeof_unsigned_long)
    if pos < 0 then some count
    else
      let bit := i % sizeof_unsigned_long
      match caps.get? pos.toNat with
      | none => none
      | some w =>
        if (w >>> bit) &&& 1 ≠ 0 then count_keys caps more (count + 1)
        else count_keys caps more count

/-- `is_keyboard(dev)`: false without the attribute, false when the split
gives no string, false out of the loop over the strings; otherwise whether
the count of key bits from `KEY_Q` to `KEY_P` is `KEY_P - KEY_Q`. `none` is
undefined behaviour. -/
def is_keyboard {σ : Type} (lib : Lib σ) (dev : Device) : Option Bool :=
  match dev.attr "capabilities/key" with
  | none => some false
  | some key =>
    let caps_strs := std_remove lib (lib.split key " ")
    if caps_strs.isEmpty then some false
    else
      match read_caps lib lib.input caps_strs with
      | none => some false
      | some caps =>
        match count_keys caps ((List.range (KEY_P + 1 - KEY_Q)).map (fun k => KEY_Q + k)) 0 with
        | none => none
        | some count => some (count == KEY_P - KEY_Q)

end udevpp

namespace notlisp

/-! ### Vocabulary of the properties -/

/-- The canonical decimal text of an integer: a `-` for a negative number,
then its decimal digits without leading zeros. -/
def decimal_text (n : Int) : String :=
  toString n

/-- A host callable for `+`: the `Integer` sum of two `Integer` arguments,
a `cor::Error` on anything else. -/
def sample_plus : lambda_type := fun env params =>
  match params with
  | [some (Expr.PodExpr (Pod.i_ x)), some (Expr.PodExpr (Pod.i_ y))] =>
    HostResult.ret (mk_value (Pod.i_ (x + y))) env
  | _ => HostResult.raise (Exn.cor_Error "+ expects two integers") env

/-- A host table whose every handle is `sample_plus`. -/
def sample_host : Host := fun _ => sample_plus

/-- An environment that binds `+` to a lambda and `greeting` to a string. -/
def sample_env : Env :=
  { dict := [("+", mk_lambda "+" 0), ("greeting", mk_string "hello")] }

/-- The calls `required(fn, dst)` made `k` times in a row on one accessor;
the first call that throws ends the row. -/
def required_times {T : Type} (fn : expr_ptr → T → Call T Unit) :
    Nat → ListAccessor → T → Access T Unit
  | 0, src, dst => Access.ret () src dst
  | k + 1, src, dst =>
    match src.required fn dst with
    | Access.ret _ src1 d1 => required_times fn k src1 d1
    | r => r

/-- The values behind the non-null pointers of a list, in its order. -/
def present (l : expr_list_type) : List Expr :=
  l.filterMap id

/-- A conversion for `required` that never throws: it appends the element
it is given to the `dst` list. -/
def sample_collect : expr_ptr → expr_list_type → Call expr_list_type Unit :=
  fun x dst => Call.ret () (dst ++ [x])

/-- A consumer for `optional` that records the element it is given and
returns whether it is non-null. -/
def sample_consumer : expr_ptr → expr_list_type → Call expr_list_type Bool :=
  fun x seen => Call.ret x.isSome (seen ++ [x])

/-- A sink for `rest_casted` that records the value it is given. -/
def sample_sink : Expr → List Expr → Call (List Expr) Unit :=
  fun x seen => Call.ret () (seen ++ [x])

/-- The class test of `LambdaExpr`. -/
def is_LambdaExpr : Expr → Bool
  | Expr.LambdaExpr _ _ => true
  | _ => false

/-- A host table whose every callable throws a `cor::Error`. -/
def sample_failing_host : Host :=
  fun _ env _ => HostResult.raise (Exn.cor_Error "boom") env

/-- A host table whose every callable throws an exception of a class
derived from `cor::Error`. -/
def sample_derived_host : Host :=
  fun _ env _ => HostResult.raise (Exn.derived "TypeError" "boom") env

/-- The value of an argument `a` in `env`, said without the evaluator:
for a symbol what `env` binds its name to, the null pointer when it binds
nothing; for anything else the argument itself. -/
def arg_value (env : Env) : expr_ptr → expr_ptr
  | some (Expr.SymbolExpr s) => (env.find s).getD none
  | p => p

/-- An environment that binds `third` to the lambda of handle 2, `x` to
the integer 5 and `y` to the integer 40. -/
def sample_env_x : Env :=
  { dict := [("third", some (Expr.LambdaExpr "third" 2)),
      ("x", some (Expr.PodExpr (Pod.i_ 5))), ("y", some (Expr.PodExpr (Pod.i_ 40)))] }

/-- A host table whose callable of handle `k` returns its argument of
index `k`, the null pointer when there is none. -/
def sample_pick : Host :=
  fun k env params => HostResult.ret (params.getD k none) env

/-! ### Evaluation of values -/

/-- C1: for every environment, `eval` of a value built by `mk_string`,
`mk_keyword`, `mk_nil`, `mk_value` (a `long` or a `double`), `mk_lambda` or
as an `ObjectExpr` returns that same value and the environment as it
was. -/
theorem eval_self_evaluating (env : Env) (s name : String) (fn : Nat) (i : Int) (r : double) :
    eval env (mk_string s) = some (mk_string s, env)
    ∧ eval env (mk_keyword s) = some (mk_keyword s, env)
    ∧ eval env mk_nil = some (mk_nil, env)
    ∧ eval env (mk_value (Pod.i_ i)) = some (mk_value (Pod.i_ i), env)
    ∧ eval env (mk_value (Pod.r_ r)) = some (mk_value (Pod.r_ r), env)
    ∧ eval env (mk_lambda name fn) = some (mk_lambda name fn, env)
    ∧ eval env (mk_object s) = some (mk_object s, env) :=
  ⟨rfl, rfl, rfl, rfl, rfl, rfl, rfl⟩

/-- C2: when the environment binds the name `s` to `x`, `eval` of
`mk_symbol s` returns `x` and the environment as it was. -/
theorem eval_symbol_bound (env : Env) (s : String) (x : expr_ptr)
    (h : env.find s = some x) :
    eval env (mk_symbol s) = some (x, env) := by
  unfold Env.find at h
  simp [eval, mk_symbol, Expr.do_eval, Env.index, h]

/-- Witness of C2: `greeting` in `sample_env`. -/
theorem eval_symbol_bound_witness :
    sample_env.find "greeting" = some (mk_string "hello")
    ∧ eval sample_env (mk_symbol "greeting") = some (mk_string "hello", sample_env) :=
  ⟨by decide, eval_symbol_bound sample_env "greeting" (mk_string "hello") (by decide)⟩

/-! ### The default atom classifier -/

/-- C7: on a `:` followed by any text `t`, `default_atom_convert` returns
a value whose payload is `t` and whose type is `String`, not `Keyword`:
`mk_keyword` builds a `BasicExpr<Expr::String>`. -/
theorem default_atom_convert_colon (t : String) :
    default_atom_convert (":" ++ t) = some (Expr.BasicExpr ExprType.String t)
    ∧ (default_atom_convert (":" ++ t)).map Expr.type = some ExprType.String
    ∧ (default_atom_convert (":" ++ t)).map Expr.type ≠ some ExprType.Keyword
    ∧ (default_atom_convert (":" ++ t)).map Expr.value = some t := by
  have h : default_atom_convert (":" ++ t) = some (Expr.BasicExpr ExprType.String t) := by
    have hd : (":" ++ t).data = ':' :: t.data := by
      simp [String.data_append]
    unfold default_atom_convert
    rw [hd]
    rfl
  rw [h]
  exact ⟨rfl, rfl, by simp [Expr.type], rfl⟩

/-- C9: a text that does not begin with `:` and that neither `strtol` nor
`strtod` consumes to its end is converted to a `Symbol` whose payload is
the whole text. (Such a text is never empty: `strtol` consumes all of the
empty text.) -/
theorem default_atom_convert_symbol (t : String)
    (hcolon : t.data.head? ≠ some ':')
    (hlong : (strtol (c_str t)).2 ≠ t.data.length)
    (hdouble : (strtod (c_str t)).2 ≠ t.data.length) :
    t ≠ ""
    ∧ default_atom_convert t = mk_symbol t
    ∧ (default_atom_convert t).map Expr.type = some ExprType.Symbol
    ∧ (default_atom_convert t).map Expr.value = some t := by
  have h : default_atom_convert t = mk_symbol t := by
    unfold default_atom_convert
    split
    · rename_i rest heq
      rw [heq] at hcolon
      simp at hcolon
    · dsimp only
      rw [if_neg hlong, if_neg hdouble]
  refine ⟨?_, h, ?_, ?_⟩
  · intro he
    subst he
    exact hlong (by decide)
  · rw [h]; rfl
  · rw [h]; rfl

/-- Witness of C9: `concat`, `+` and `12abc` are symbols. -/
theorem default_atom_convert_symbol_witness :
    (default_atom_convert "concat" = mk_symbol "concat"
      ∧ default_atom_convert "+" = mk_symbol "+"
      ∧ default_atom_convert "12abc" = mk_symbol "12abc") :=
  ⟨(default_atom_convert_symbol "concat" (by decide) (by decide) (by decide)).2.1,
   (default_atom_convert_symbol "+" (by decide) (by decide) (by decide)).2.1,
   (default_atom_convert_symbol "12abc" (by decide) (by decide) (by decide)).2.1⟩

/-! ### Closing a list -/

/-- C5: when the sequence on top of the stack is empty, `on_list_end`
reads its first element without a check: the behaviour is undefined and no
error is thrown; so it is for `list_begin`, `list_end` fed to a fresh
interpreter. -/
theorem on_list_end_empty_top (host : Host) (env : Env) (below : List expr_list_type)
    (conv : String → expr_ptr) :
    Interpreter.on_list_end host { env := env, stack := [] :: below, convert_atom := conv }
      = Outcome.undefined
    ∧ Interpreter.feed host (Interpreter.new env conv) [Token.list_begin, Token.list_end]
      = Outcome.undefined :=
  ⟨rfl, rfl⟩

/-- C6: with only the top-level sequence on the stack, a `list_end` whose
head is a function that returns does not throw: the call is made, the last
sequence is popped and `top()` is taken of the empty stack, which is
undefined behaviour. Seen on `+ 1 2 )` fed to a fresh interpreter. -/
theorem on_list_end_unmatched_close :
    Interpreter.feed sample_host (Interpreter.new sample_env default_atom_convert)
      [Token.atom "+", Token.atom "1", Token.atom "2", Token.list_end]
      = Outcome.undefined := by
  rfl

/-- The list overload of `eval` is defined on every list without a null
element; it gives one value per element, in the order of the elements. -/
theorem eval_list_total (args : expr_list_type) :
    ∀ env : Env, (∀ a ∈ args, a ≠ none) →
    ∃ params env2, eval_list env args = some (params, env2)
      ∧ params.length = args.length
      ∧ List.Forall₂ (fun a v => ∃ e e1, eval e a = some (v, e1)) args params := by
  induction args with
  | nil => intro env _; exact ⟨[], env, rfl, rfl, List.Forall₂.nil⟩
  | cons a as ih =>
    intro env h
    have ha : a ≠ none := h a (List.mem_cons_self a as)
    obtain ⟨x, hx⟩ := Option.ne_none_iff_exists'.mp ha
    subst hx
    obtain ⟨params, env2, h1, h2, h3⟩ :=
      ih (x.do_eval env (some x)).2 (fun b hb => h b (List.mem_cons_of_mem _ hb))
    refine ⟨(x.do_eval env (some x)).1 :: params, env2, ?_, ?_, ?_⟩
    · simp only [eval_list, eval]
      rw [h1]
    · simp [h2]
    · exact List.Forall₂.cons ⟨env, (x.do_eval env (some x)).2, rfl⟩ h3

/-- A non-null result of `eval` leaves the environment as it was: only a
symbol the environment does not bind changes it, and that gives null. -/
theorem eval_present_env (env env1 : Env) (h : expr_ptr) (p : Expr)
    (hh : eval env h = some (some p, env1)) : env1 = env := by
  cases h with
  | none => simp [eval] at hh
  | some e =>
    cases e with
    | SymbolExpr s =>
      simp only [eval, Expr.do_eval, Env.index] at hh
      split at hh
      · simp only [Option.some.injEq, Prod.mk.injEq] at hh
        exact hh.2.symm
      · simp at hh
    | BasicExpr T s => simp [eval, Expr.do_eval] at hh; exact hh.2.symm
    | PodExpr v => simp [eval, Expr.do_eval] at hh; exact hh.2.symm
    | LambdaExpr n f => simp [eval, Expr.do_eval] at hh; exact hh.2.symm
    | ObjectExpr s => simp [eval, Expr.do_eval] at hh; exact hh.2.symm

/-- What `eval` returns on a non-null argument is its `arg_value`. -/
theorem eval_arg_value (env : Env) (a : expr_ptr) (ha : a ≠ none) :
    ∃ env1, eval env a = some (arg_value env a, env1)
      ∧ ∀ k, (env1.find k).getD none = (env.find k).getD none := by
  cases a with
  | none => exact absurd rfl ha
  | some e =>
    cases e with
    | SymbolExpr s =>
      simp only [eval, Expr.do_eval, Env.index, arg_value, Env.find]
      cases hl : env.dict.lookup s with
      | some v => exact ⟨env, rfl, fun _ => rfl⟩
      | none =>
        refine ⟨{ dict := env.dict ++ [(s, none)] }, rfl, ?_⟩
        intro k
        simp only [List.lookup_append]
        cases hk : env.dict.lookup k with
        | some x => rfl
        | none =>
          simp only [Option.none_or, List.lookup_cons, List.lookup_nil]
          split <;> rfl
    | BasicExpr T s => exact ⟨env, rfl, fun _ => rfl⟩
    | PodExpr v => exact ⟨env, rfl, fun _ => rfl⟩
    | LambdaExpr n f => exact ⟨env, rfl, fun _ => rfl⟩
    | ObjectExpr s => exact ⟨env, rfl, fun _ => rfl⟩

/-- `arg_value` is the same in two environments that bind every name to the
same value, null counted as no binding. -/
theorem arg_value_congr (env env1 : Env)
    (h : ∀ k, (env1.find k).getD none = (env.find k).getD none) (a : expr_ptr) :
    arg_value env1 a = arg_value env a := by
  cases a with
  | none => rfl
  | some e =>
    cases e with
    | SymbolExpr s => exact h s
    | BasicExpr T s => rfl
    | PodExpr v => rfl
    | LambdaExpr n f => rfl
    | ObjectExpr s => rfl

/-- The list overload of `eval` on a list without a null element returns,
in the order of the list, the `arg_value` of each element in the
environment it started from; the environment it leaves binds every name to
the same value as before, null counted as no binding. -/
theorem eval_list_arg_values (args : expr_list_type) :
    ∀ env : Env, (∀ a ∈ args, a ≠ none) →
    ∃ env2, eval_list env args = some (args.map (arg_value env), env2)
      ∧ ∀ k, (env2.find k).getD none = (env.find k).getD none := by
  induction args with
  | nil => intro env _; exact ⟨env, rfl, fun _ => rfl⟩
  | cons a as ih =>
    intro env h
    obtain ⟨env1, h1, hk1⟩ := eval_arg_value env a (h a (List.mem_cons_self a as))
    obtain ⟨env2, h2, hk2⟩ := ih env1 (fun b hb => h b (List.mem_cons_of_mem _ hb))
    refine ⟨env2, ?_, fun k => (hk2 k).trans (hk1 k)⟩
    have hmap : List.map (arg_value env1) as = List.map (arg_value env) as :=
      List.map_congr_left (fun b _ => arg_value_congr env env1 hk1 b)
    simp only [eval_list, h1, h2, List.map_cons, hmap]

/-- C4: with at least two sequences on the stack, the top one `h :: args`
without a null argument and `h` evaluating to a lambda: evaluating `h`
leaves the environment as it was; the arguments evaluate, front to back, to
the list of their values in that environment, `eval(env, a)` for each
argument `a` in the order of `args` (a symbol gives what the environment
binds it to, any other value gives itself); and whenever the host callable
returns `res` on that list, `on_list_end` ends normally: the top sequence
is gone, `res` is appended to the sequence below it, and the rest of the
stack is as before. -/
theorem on_list_end_applies (host : Host) (env env1 : Env) (conv : String → expr_ptr)
    (h : expr_ptr) (args top : expr_list_type) (rest : List expr_list_type)
    (name : String) (fn : Nat)
    (hhead : eval env h = some (some (Expr.LambdaExpr name fn), env1))
    (hargs : ∀ a ∈ args, a ≠ none) :
    env1 = env
    ∧ (∀ a ∈ args, (eval env a).map Prod.fst = some (arg_value env a))
    ∧ ∃ env2, eval_list env args = some (args.map (arg_value env), env2)
      ∧ (args.map (arg_value env)).length = args.length
      ∧ (∀ k, (env2.find k).getD none = (env.find k).getD none)
      ∧ ∀ res env3, host fn env2 (args.map (arg_value env)) = HostResult.ret res env3 →
          Interpreter.on_list_end host
            { env := env, stack := (h :: args) :: top :: rest, convert_atom := conv }
          = Outcome.ok
            { env := env3, stack := (top ++ [res]) :: rest, convert_atom := conv } := by
  have henv : env1 = env := eval_present_env env env1 h _ hhead
  subst henv
  obtain ⟨env2, h1, hk⟩ := eval_list_arg_values args env1 hargs
  refine ⟨rfl, ?_, env2, h1, by simp, hk, ?_⟩
  · intro a ha
    obtain ⟨e1, he, _⟩ := eval_arg_value env1 a (hargs a ha)
    rw [he]
    rfl
  · intro res env3 hf
    simp only [Interpreter.on_list_end, hhead, Expr.type, h1, hf]
    simp

/-- Witness of C4: `(third x 2 y)` closed inside the top level of
`sample_env_x`: the host callable receives 5, 2 and 40 in that order, and
its result, the third of them, is appended below. -/
theorem on_list_end_applies_witness :
    eval sample_env_x (some (Expr.SymbolExpr "third"))
      = some (some (Expr.LambdaExpr "third" 2), sample_env_x)
    ∧ (∀ a ∈ [some (Expr.SymbolExpr "x"), some (Expr.PodExpr (Pod.i_ 2)),
        some (Expr.SymbolExpr "y")], a ≠ none)
    ∧ eval_list sample_env_x
        [some (Expr.SymbolExpr "x"), some (Expr.PodExpr (Pod.i_ 2)), some (Expr.SymbolExpr "y")]
      = some ([some (Expr.PodExpr (Pod.i_ 5)), some (Expr.PodExpr (Pod.i_ 2)),
          some (Expr.PodExpr (Pod.i_ 40))], sample_env_x)
    ∧ Interpreter.on_list_end sample_pick
        { env := sample_env_x,
          stack := [[some (Expr.SymbolExpr "third"), some (Expr.SymbolExpr "x"),
              some (Expr.PodExpr (Pod.i_ 2)), some (Expr.SymbolExpr "y")],
            [some (Expr.BasicExpr ExprType.String "s")], []],
          convert_atom := default_atom_convert }
      = Outcome.ok
        { env := sample_env_x,
          stack := [[some (Expr.BasicExpr ExprType.String "s"),
            some (Expr.PodExpr (Pod.i_ 40))], []],
          convert_atom := default_atom_convert } := by
  obtain ⟨_, _, env2, hl, _, _, hcall⟩ :=
    on_list_end_applies sample_pick sample_env_x sample_env_x default_atom_convert
      (some (Expr.SymbolExpr "third"))
      [some (Expr.SymbolExpr "x"), some (Expr.PodExpr (Pod.i_ 2)), some (Expr.SymbolExpr "y")]
      [some (Expr.BasicExpr ExprType.String "s")] [[]] "third" 2 (by decide) (by decide)
  have hl1 : eval_list sample_env_x
      [some (Expr.SymbolExpr "x"), some (Expr.PodExpr (Pod.i_ 2)), some (Expr.SymbolExpr "y")]
      = some ([some (Expr.PodExpr (Pod.i_ 5)), some (Expr.PodExpr (Pod.i_ 2)),
          some (Expr.PodExpr (Pod.i_ 40))], sample_env_x) := by decide
  have henv : env2 = sample_env_x := by
    rw [hl1] at hl
    simp only [Option.some.injEq, Prod.mk.injEq] at hl
    exact hl.2.symm
  subst henv
  exact ⟨by decide, by decide, hl1, hcall _ _ rfl⟩

/-! ### Runs of the interpreter -/

/-- A decimal digit character is no white space, no sign, no NUL and no
colon. -/
theorem isDigit_facts (c : Char) (h : c.isDigit = true) :
    isspace c = false ∧ c ≠ '-' ∧ c ≠ '+' ∧ (c != '\x00') = true ∧ c ≠ ':' := by
  refine ⟨?_, ?_, ?_, ?_, ?_⟩
  · unfold isspace
    simp only [Bool.or_eq_false_iff, beq_eq_false_iff_ne, ne_eq]
    refine ⟨⟨⟨⟨⟨?_, ?_⟩, ?_⟩, ?_⟩, ?_⟩, ?_⟩ <;>
      (rintro rfl; exact absurd h (by decide))
  · rintro rfl; exact absurd h (by decide)
  · rintro rfl; exact absurd h (by decide)
  · simp only [bne_iff_ne, ne_eq]
    rintro rfl; exact absurd h (by decide)
  · rintro rfl; exact absurd h (by decide)

/-- The character of a digit below ten is a decimal digit of that value. -/
theorem digitChar_facts :
    ∀ d, d < 10 → (Nat.digitChar d).isDigit = true ∧ digit_value (Nat.digitChar d) = d := by
  decide

/-- The value of a digit sequence followed by one more digit. -/
theorem digits_value_snoc (b : Nat) (l : List Char) (c : Char) :
    digits_value b (l ++ [c]) = digits_value b l * b + digit_value c := by
  simp [digits_value, List.foldl_append]

/-- The accumulator of `Nat.toDigitsCore` is a suffix of what it returns. -/
theorem toDigitsCore_acc (b f : Nat) :
    ∀ (n : Nat) (ds : List Char),
      Nat.toDigitsCore b f n ds = Nat.toDigitsCore b f n [] ++ ds := by
  induction f with
  | zero => intro n ds; simp [Nat.toDigitsCore]
  | succ f ih =>
    intro n ds
    simp only [Nat.toDigitsCore]
    split
    · simp
    · rw [ih (n / b) (Nat.digitChar (n % b) :: ds), ih (n / b) [Nat.digitChar (n % b)]]
      simp

/-- The decimal digits Lean prints for `n`: a non-empty sequence of digit
characters whose value is `n`. -/
theorem toDigitsCore_value (f : Nat) :
    ∀ n, n < f →
      Nat.toDigitsCore 10 f n [] ≠ []
      ∧ (∀ c ∈ Nat.toDigitsCore 10 f n [], c.isDigit = true)
      ∧ digits_value 10 (Nat.toDigitsCore 10 f n []) = n := by
  induction f with
  | zero => intro n h; omega
  | succ f ih =>
    intro n hn
    have hd := digitChar_facts (n % 10) (Nat.mod_lt n (by decide))
    simp only [Nat.toDigitsCore]
    split
    · rename_i h0
      have hlt : n % 10 = n := by omega
      refine ⟨by simp, ?_, ?_⟩
      · intro c hc
        simp only [List.mem_singleton] at hc
        rw [hc]; exact hd.1
      · simp only [digits_value, List.foldl_cons, List.foldl_nil, hd.2]
        omega
    · rename_i h0
      rw [toDigitsCore_acc]
      obtain ⟨_, i2, i3⟩ := ih (n / 10) (by omega)
      refine ⟨by simp, ?_, ?_⟩
      · intro c hc
        rcases List.mem_append.mp hc with hc | hc
        · exact i2 c hc
        · simp only [List.mem_singleton] at hc
          rw [hc]; exact hd.1
      · rw [digits_value_snoc, i3, hd.2]
        omega

/-- The decimal text Lean prints for a natural number: non-empty, digits
only, of that value. -/
theorem repr_digits (n : Nat) :
    (Nat.repr n).data ≠ []
    ∧ (∀ c ∈ (Nat.repr n).data, c.isDigit = true)
    ∧ digits_value 10 (Nat.repr n).data = n := by
  have h := toDigitsCore_value (n + 1) n (Nat.lt_succ_self n)
  simpa [Nat.repr, Nat.toDigits, List.asString] using h

/-- `strtol` on a non-empty sequence of digits, and on one behind a minus
sign: every character is consumed, and the value is the number, brought to
`LONG_MAX` or `LONG_MIN` when it is out of range. -/
theorem strtol_digits (l : List Char) (hne : l ≠ []) (hd : ∀ c ∈ l, c.isDigit = true) :
    strtol l = (min (digits_value 10 l : Int) LONG_MAX, l.length)
    ∧ strtol ('-' :: l) = (max (-(digits_value 10 l : Int)) LONG_MIN, l.length + 1) := by
  obtain ⟨c, cs, rfl⟩ := List.exists_cons_of_ne_nil hne
  have hc := isDigit_facts c (hd c (List.mem_cons_self c cs))
  have htw : List.takeWhile Char.isDigit (c :: cs) = c :: cs :=
    List.takeWhile_eq_self_iff.mpr hd
  have hsign : strto_sign (c :: cs) = (false, 0, c :: cs) := by
    unfold strto_sign
    split
    · rename_i heq; cases heq; exact absurd rfl hc.2.1
    · rename_i heq; cases heq; exact absurd rfl hc.2.2.1
    · rfl
  have hws : List.takeWhile isspace (c :: cs) = [] := by
    simp [List.takeWhile_cons, hc.1]
  have hdw : List.dropWhile isspace (c :: cs) = c :: cs := by
    simp [List.dropWhile_cons, hc.1]
  have hm : isspace '-' = false := by decide
  have hws2 : List.takeWhile isspace ('-' :: c :: cs) = [] := by
    simp [List.takeWhile_cons, hm]
  have hdw2 : List.dropWhile isspace ('-' :: c :: cs) = '-' :: c :: cs := by
    simp [List.dropWhile_cons, hm]
  have hsign2 : strto_sign ('-' :: c :: cs) = (true, 1, c :: cs) := rfl
  constructor
  · simp only [strtol, hws, hdw, hsign, htw]
    simp
  · simp only [strtol, hws2, hdw2, hsign2, htw]
    simp
    omega

/-- `s.c_str()` of a text without a NUL is the whole text. -/
theorem c_str_eq (s : String) (h : ∀ c ∈ s.data, (c != '\x00') = true) :
    c_str s = s.data :=
  List.takeWhile_eq_self_iff.mpr h

/-- A text that does not begin with `:` and that `strtol` consumes to its
end is converted to the `long` that `strtol` returns. -/
theorem default_atom_convert_of_strtol (s : String)
    (hcolon : s.data.head? ≠ some ':')
    (hlong : (strtol (c_str s)).2 = s.data.length) :
    default_atom_convert s = mk_value (Pod.i_ (strtol (c_str s)).1) := by
  unfold default_atom_convert
  split
  · rename_i rest heq
    rw [heq] at hcolon
    simp at hcolon
  · dsimp only
    rw [if_pos hlong]

/-- The characters of the decimal text of an integer. -/
theorem decimal_text_data (n : Int) :
    (decimal_text n).data =
      if n < 0 then '-' :: (Nat.repr n.natAbs).data else (Nat.repr n.natAbs).data := by
  cases n with
  | ofNat m =>
    have : ¬ (Int.ofNat m < 0) := by simp
    rw [if_neg this]
    rfl
  | negSucc m =>
    have : Int.negSucc m < 0 := Int.negSucc_lt_zero m
    rw [if_pos this]
    rfl

/-- `default_atom_convert` on the decimal text of any integer: the `long`
nearest to it in the range of `long`. -/
theorem default_atom_convert_decimal (n : Int) :
    default_atom_convert (decimal_text n)
      = mk_value (Pod.i_ (if n < 0 then max n LONG_MIN else min n LONG_MAX)) := by
  obtain ⟨hne, hd, hv⟩ := repr_digits n.natAbs
  obtain ⟨hpos, hneg⟩ := strtol_digits _ hne hd
  rw [hv] at hpos hneg
  have hnul : ∀ c ∈ (decimal_text n).data, (c != '\x00') = true := by
    intro c hc
    rw [decimal_text_data] at hc
    split at hc
    · rcases List.mem_cons.mp hc with h | h
      · rw [h]; decide
      · exact (isDigit_facts c (hd c h)).2.2.2.1
    · exact (isDigit_facts c (hd c hc)).2.2.2.1
  have hcolon : (decimal_text n).data.head? ≠ some ':' := by
    rw [decimal_text_data]
    split
    · simp
    · obtain ⟨c, cs, hcs⟩ := List.exists_cons_of_ne_nil hne
      have := (isDigit_facts c (hd c (by rw [hcs]; exact List.mem_cons_self c cs))).2.2.2.2
      rw [hcs]
      simpa using this
  have hstr : strtol (c_str (decimal_text n))
      = (if n < 0 then max n LONG_MIN else min n LONG_MAX, (decimal_text n).data.length) := by
    rw [c_str_eq _ hnul, decimal_text_data]
    split
    · rename_i h
      rw [hneg, List.length_cons]
      have : -(n.natAbs : Int) = n := by omega
      rw [this]
    · rename_i h
      rw [hpos]
      have : (n.natAbs : Int) = n := by omega
      rw [this]
  rw [default_atom_convert_of_strtol _ hcolon (by rw [hstr]), hstr]

/-- C8: for every integer `n` from `-2^63` to `2^63 - 1`,
`default_atom_convert` on the decimal text of `n` returns a `PodExpr` whose
`long` is `n`: its type is `Integer`, it is no `Symbol` and no `Real`. -/
theorem default_atom_convert_integer (n : Int) (hlo : -(2 ^ 63) ≤ n) (hhi : n ≤ 2 ^ 63 - 1) :
    default_atom_convert (decimal_text n) = some (Expr.PodExpr (Pod.i_ n))
    ∧ (default_atom_convert (decimal_text n)).map Expr.type = some ExprType.Integer
    ∧ (∀ s, default_atom_convert (decimal_text n) ≠ some (Expr.SymbolExpr s))
    ∧ (∀ r, default_atom_convert (decimal_text n) ≠ some (Expr.PodExpr (Pod.r_ r))) := by
  have hlo1 : LONG_MIN ≤ n := hlo
  have hhi1 : n ≤ LONG_MAX := hhi
  have h : default_atom_convert (decimal_text n) = some (Expr.PodExpr (Pod.i_ n)) := by
    rw [default_atom_convert_decimal]
    unfold mk_value
    split
    · rw [max_eq_left hlo1]
    · rw [min_eq_left hhi1]
  rw [h]
  exact ⟨rfl, rfl, by simp, by simp⟩

/-- Witness of C8: the texts `1`, `2` and `-17`, and the text of
`2^63 - 1`. -/
theorem default_atom_convert_integer_witness :
    (-(2 ^ 63) ≤ (1 : Int) ∧ (1 : Int) ≤ 2 ^ 63 - 1)
    ∧ default_atom_convert "1" = some (Expr.PodExpr (Pod.i_ 1))
    ∧ default_atom_convert "2" = some (Expr.PodExpr (Pod.i_ 2))
    ∧ default_atom_convert "-17" = some (Expr.PodExpr (Pod.i_ (-17)))
    ∧ default_atom_convert (decimal_text (2 ^ 63 - 1))
        = some (Expr.PodExpr (Pod.i_ 9223372036854775807)) := by
  have h17 := (default_atom_convert_integer (-17) (by decide) (by decide)).1
  have t17 : decimal_text (-17) = "-17" := by decide
  rw [t17] at h17
  have hmax := (default_atom_convert_integer (2 ^ 63 - 1) (by decide) (by decide)).1
  have tmax : (2 ^ 63 - 1 : Int) = 9223372036854775807 := by decide
  rw [tmax] at hmax
  rw [tmax]
  exact ⟨by decide,
    (default_atom_convert_integer 1 (by decide) (by decide)).1,
    (default_atom_convert_integer 2 (by decide) (by decide)).1, h17, hmax⟩

/-! ### The `(+ a b)` scenario -/

/-- C10: let the environment bind `+` to a lambda whose callable returns
the `Integer` sum of two `Integer` arguments whenever the sum is from
`-2^63` to `2^63 - 1`. For `a`, `b` and `a + b` in that range, the stream
`list_begin`, `atom "+"`, the atoms of the decimal texts of `a` and `b`,
`list_end`, fed to a fresh interpreter with the default classifier, ends
normally with the stack back to one sequence and `results()` equal to the
one value, the `PodExpr` whose `long` is `a + b`. -/
theorem feed_plus (host : Host) (env : Env) (name : String) (fn : Nat) (a b : Int)
    (ha : -(2 ^ 63) ≤ a ∧ a ≤ 2 ^ 63 - 1) (hb : -(2 ^ 63) ≤ b ∧ b ≤ 2 ^ 63 - 1)
    (hab : -(2 ^ 63) ≤ a + b ∧ a + b ≤ 2 ^ 63 - 1)
    (hbind : env.find "+" = some (some (Expr.LambdaExpr name fn)))
    (hplus : ∀ (e : Env) (x y : Int), -(2 ^ 63) ≤ x + y → x + y ≤ 2 ^ 63 - 1 →
      ∃ e1, host fn e [some (Expr.PodExpr (Pod.i_ x)), some (Expr.PodExpr (Pod.i_ y))]
        = HostResult.ret (some (Expr.PodExpr (Pod.i_ (x + y)))) e1) :
    ∃ it, Interpreter.feed host (Interpreter.new env default_atom_convert)
        [Token.list_begin, Token.atom "+", Token.atom (decimal_text a),
          Token.atom (decimal_text b), Token.list_end] = Outcome.ok it
      ∧ it.stack = [[some (Expr.PodExpr (Pod.i_ (a + b)))]]
      ∧ it.results = some [some (Expr.PodExpr (Pod.i_ (a + b)))] := by
  have hsym : default_atom_convert "+" = some (Expr.SymbolExpr "+") := by decide
  have hta : default_atom_convert (decimal_text a) = some (Expr.PodExpr (Pod.i_ a)) := by
    have hlo : LONG_MIN ≤ a := ha.1
    have hhi : a ≤ LONG_MAX := ha.2
    rw [default_atom_convert_decimal]
    unfold mk_value
    split
    · rw [max_eq_left hlo]
    · rw [min_eq_left hhi]
  have htb : default_atom_convert (decimal_text b) = some (Expr.PodExpr (Pod.i_ b)) := by
    have hlo : LONG_MIN ≤ b := hb.1
    have hhi : b ≤ LONG_MAX := hb.2
    rw [default_atom_convert_decimal]
    unfold mk_value
    split
    · rw [max_eq_left hlo]
    · rw [min_eq_left hhi]
  obtain ⟨e1, hcall⟩ := hplus env a b hab.1 hab.2
  unfold Env.find at hbind
  have hhead : eval env (some (Expr.SymbolExpr "+"))
      = some (some (Expr.LambdaExpr name fn), env) := by
    simp [eval, Expr.do_eval, Env.index, hbind]
  have hargs : eval_list env [some (Expr.PodExpr (Pod.i_ a)), some (Expr.PodExpr (Pod.i_ b))]
      = some ([some (Expr.PodExpr (Pod.i_ a)), some (Expr.PodExpr (Pod.i_ b))], env) := rfl
  refine ⟨{ env := e1, stack := [[some (Expr.PodExpr (Pod.i_ (a + b)))]],
            convert_atom := default_atom_convert }, ?_, rfl, rfl⟩
  simp only [Interpreter.feed, Interpreter.on_token, Interpreter.on_list_begin,
    Interpreter.on_atom, Interpreter.new, hsym, hta, htb, List.nil_append, List.cons_append,
    Interpreter.on_list_end, hhead, Expr.type, hargs, hcall]
  simp

/-- Witness of C10: `(+ 1 2)` over `sample_env` and `sample_host` gives the
integer 3, and `(+ -5 47)` the integer 42. -/
theorem feed_plus_witness :
    sample_env.find "+" = some (some (Expr.LambdaExpr "+" 0))
    ∧ (∃ it, Interpreter.feed sample_host (Interpreter.new sample_env default_atom_convert)
        [Token.list_begin, Token.atom "+", Token.atom "1", Token.atom "2", Token.list_end]
          = Outcome.ok it
      ∧ it.stack = [[some (Expr.PodExpr (Pod.i_ 3))]]
      ∧ it.results = some [some (Expr.PodExpr (Pod.i_ 3))])
    ∧ ∃ it, Interpreter.feed sample_host (Interpreter.new sample_env default_atom_convert)
        [Token.list_begin, Token.atom "+", Token.atom "-5", Token.atom "47", Token.list_end]
          = Outcome.ok it
      ∧ it.stack = [[some (Expr.PodExpr (Pod.i_ 42))]]
      ∧ it.results = some [some (Expr.PodExpr (Pod.i_ 42))] := by
  have h := feed_plus sample_host sample_env "+" 0 (-5) 47 (by decide) (by decide) (by decide)
    (by decide) (fun e _ _ _ _ => ⟨e, rfl⟩)
  have t1 : decimal_text (-5) = "-5" := by decide
  have t2 : decimal_text 47 = "47" := by decide
  have t3 : (-5 : Int) + 47 = 42 := by decide
  rw [t1, t2, t3] at h
  exact ⟨by decide,
    feed_plus sample_host sample_env "+" 0 1 2 (by decide) (by decide) (by decide) (by decide)
      (fun e _ _ _ _ => ⟨e, rfl⟩), h⟩

/-! ### Unbound symbols and failures of `on_list_end` -/

/-- C11: for a name `s` the environment does not bind, `eval` of
`mk_symbol s` is defined and returns the null pointer; the environment it
leaves binds `s` to the null pointer and every other name as before, and a
second `eval` of the symbol returns the null pointer again and changes
nothing. -/
theorem eval_symbol_unbound (env : Env) (s : String) (h : env.find s = none) :
    ∃ env1, eval env (mk_symbol s) = some (none, env1)
      ∧ env1.find s = some none
      ∧ (∀ k, k ≠ s → env1.find k = env.find k)
      ∧ eval env1 (mk_symbol s) = some (none, env1) := by
  unfold Env.find at h
  have hfind : ({ dict := env.dict ++ [(s, none)] } : Env).find s = some none := by
    simp [Env.find, List.lookup_append, h, List.lookup_cons]
  refine ⟨{ dict := env.dict ++ [(s, none)] }, ?_, hfind, ?_, ?_⟩
  · simp [eval, mk_symbol, Expr.do_eval, Env.index, h]
  · intro k hk
    have hne : (k == s) = false := by simpa using hk
    simp [Env.find, List.lookup_append, List.lookup_cons, hne]
  · unfold Env.find at hfind
    simp only [eval, mk_symbol, Expr.do_eval, Env.index, hfind]

/-- Witness of C11: `nope` in `sample_env`. -/
theorem eval_symbol_unbound_witness :
    sample_env.find "nope" = none
    ∧ ∃ env1, eval sample_env (mk_symbol "nope") = some (none, env1)
      ∧ env1.find "nope" = some none
      ∧ (∀ k, k ≠ "nope" → env1.find k = sample_env.find k)
      ∧ eval env1 (mk_symbol "nope") = some (none, env1) :=
  ⟨by decide, eval_symbol_unbound sample_env "nope" (by decide)⟩

/-- When the head of the top sequence evaluates to the null pointer,
`on_list_end` throws the `cor::Error` and leaves the stack as it was. -/
theorem on_list_end_head_null (host : Host) (env env1 : Env) (conv : String → expr_ptr)
    (e : Expr) (args : expr_list_type) (below : List expr_list_type)
    (hh : eval env (some e) = some (none, env1)) :
    Interpreter.on_list_end host
      { env := env, stack := (some e :: args) :: below, convert_atom := conv }
    = Outcome.threw
        (Exn.cor_Error ("Got null evaluating " ++ e.value ++ ", expecting function"))
        { env := env1, stack := (some e :: args) :: below, convert_atom := conv } := by
  simp only [Interpreter.on_list_end, hh]

/-- When the head of the top sequence evaluates to a value whose type is
not `Function`, `on_list_end` throws the `std::logic_error` and leaves the
stack as it was. -/
theorem on_list_end_head_other (host : Host) (env env1 : Env) (conv : String → expr_ptr)
    (h : expr_ptr) (p : Expr) (args : expr_list_type) (below : List expr_list_type)
    (hh : eval env h = some (some p, env1)) (hp : p.type ≠ ExprType.Function) :
    Interpreter.on_list_end host
      { env := env, stack := (h :: args) :: below, convert_atom := conv }
    = Outcome.threw (Exn.logic_error "Not a function")
        { env := env1, stack := (h :: args) :: below, convert_atom := conv } := by
  simp only [Interpreter.on_list_end, hh]
  rw [if_pos hp]

/-- When the head of the top sequence evaluates to a lambda whose callable
throws `e` on the evaluated arguments, `on_list_end` throws what the
`catch` block makes of `e` and leaves the top sequence without its head. -/
theorem on_list_end_host_raise (host : Host) (env env1 env2 env3 : Env)
    (conv : String → expr_ptr) (h : expr_ptr) (args params : expr_list_type)
    (below : List expr_list_type) (name : String) (fn : Nat) (e : Exn)
    (hh : eval env h = some (some (Expr.LambdaExpr name fn), env1))
    (ha : eval_list env1 args = some (params, env2))
    (hf : host fn env2 params = HostResult.raise e env3) :
    Interpreter.on_list_end host
      { env := env, stack := (h :: args) :: below, convert_atom := conv }
    = Outcome.threw (catch_rethrow e)
        { env := env3, stack := args :: below, convert_atom := conv } := by
  simp only [Interpreter.on_list_end, hh, Expr.type, ha, hf]
  simp

/-- When the head of the top sequence evaluates to a value of type
`Function`, an exception out of `on_list_end` is what the `catch` block
makes of one the host callable threw on the evaluated arguments, and the
head is off the top sequence. -/
theorem on_list_end_function_threw (host : Host) (env env1 : Env) (conv : String → expr_ptr)
    (h : expr_ptr) (p : Expr) (args : expr_list_type) (below : List expr_list_type)
    (hh : eval env h = some (some p, env1)) (hp : p.type = ExprType.Function)
    (e : Exn) (it1 : Interpreter)
    (ht : Interpreter.on_list_end host
      { env := env, stack := (h :: args) :: below, convert_atom := conv }
      = Outcome.threw e it1) :
    ∃ name fn params env2 env3 e0, p = Expr.LambdaExpr name fn
      ∧ eval_list env1 args = some (params, env2)
      ∧ host fn env2 params = HostResult.raise e0 env3
      ∧ e = catch_rethrow e0
      ∧ it1.stack = args :: below := by
  simp only [Interpreter.on_list_end, hh, hp] at ht
  simp only [ne_eq, not_true_eq_false, ↓reduceIte] at ht
  split at ht
  · cases ht
  · rename_i params env2 hl
    split at ht
    · rename_i name fn
      split at ht
      · rename_i e1 env3 hf
        cases ht
        exact ⟨name, fn, params, env2, env3, e1, rfl, hl, hf, rfl, rfl⟩
      · split at ht <;> cases ht
    · cases ht

/-- The failures of `on_list_end` on a top sequence `h :: args` and what
they leave: when `h` evaluates to a lambda whose callable throws `e`, what
the `catch` block makes of `e` is thrown, the stack keeps its depth and the
sequences below the top, and the top sequence is `args`, without `h`; when
`h` evaluates to the null pointer or to a value whose type is not
`Function`, the throw leaves the whole stack as before. -/
theorem on_list_end_failures (host : Host) (env env1 : Env)
    (conv : String → expr_ptr) (h : expr_ptr) (args : expr_list_type)
    (below : List expr_list_type) :
    (∀ name fn params env2 e env3,
      eval env h = some (some (Expr.LambdaExpr name fn), env1) →
      eval_list env1 args = some (params, env2) →
      host fn env2 params = HostResult.raise e env3 →
      Interpreter.on_list_end host
          { env := env, stack := (h :: args) :: below, convert_atom := conv }
        = Outcome.threw (catch_rethrow e)
            { env := env3, stack := args :: below, convert_atom := conv }
      ∧ ((∀ cls what, e ≠ Exn.derived cls what) → catch_rethrow e = e)
      ∧ (args :: below).length = ((h :: args) :: below).length
      ∧ args ≠ h :: args)
    ∧ (eval env h = some (none, env1) →
      ∃ msg, Interpreter.on_list_end host
          { env := env, stack := (h :: args) :: below, convert_atom := conv }
        = Outcome.threw (Exn.cor_Error msg)
            { env := env1, stack := (h :: args) :: below, convert_atom := conv })
    ∧ (∀ p, eval env h = some (some p, env1) → p.type ≠ ExprType.Function →
      Interpreter.on_list_end host
          { env := env, stack := (h :: args) :: below, convert_atom := conv }
        = Outcome.threw (Exn.logic_error "Not a function")
            { env := env1, stack := (h :: args) :: below, convert_atom := conv }) := by
  refine ⟨?_, ?_, ?_⟩
  · intro name fn params env2 e env3 hh ha hf
    refine ⟨on_list_end_host_raise host env env1 env2 env3 conv h args params below name fn e
      hh ha hf, ?_, rfl, ?_⟩
    · intro hne
      cases e with
      | cor_Error w => rfl
      | derived c w => exact absurd rfl (hne c w)
      | logic_error w => rfl
      | other w => rfl
    · intro hcontra
      have := congrArg List.length hcontra
      simp at this
  · intro hh
    cases h with
    | none => simp [eval] at hh
    | some e => exact ⟨_, on_list_end_head_null host env env1 conv e args below hh⟩
  · intro p hh hp
    exact on_list_end_head_other host env env1 conv h p args below hh hp

/-- C12: when the top sequence is not empty and its head evaluates to the
null pointer, `on_list_end` throws the `cor::Error` "Got null evaluating
..., expecting function" (the spec's `NullResult`), with the stack as it
was; the outcome is the same whatever the host callables are, so none is
called. -/
theorem on_list_end_null_result (host host1 : Host) (env env1 : Env)
    (conv : String → expr_ptr) (h : expr_ptr) (args : expr_list_type)
    (below : List expr_list_type)
    (hh : eval env h = some (none, env1)) :
    ∃ e, h = some e
      ∧ Interpreter.on_list_end host
          { env := env, stack := (h :: args) :: below, convert_atom := conv }
        = Outcome.threw
            (Exn.cor_Error ("Got null evaluating " ++ e.value ++ ", expecting function"))
            { env := env1, stack := (h :: args) :: below, convert_atom := conv }
      ∧ Interpreter.on_list_end host1
          { env := env, stack := (h :: args) :: below, convert_atom := conv }
        = Interpreter.on_list_end host
          { env := env, stack := (h :: args) :: below, convert_atom := conv } := by
  cases h with
  | none => simp [eval] at hh
  | some e =>
    refine ⟨e, rfl, on_list_end_head_null host env env1 conv e args below hh, ?_⟩
    rw [on_list_end_head_null host env env1 conv e args below hh,
      on_list_end_head_null host1 env env1 conv e args below hh]

/-- Witness of C12: `(nope 1)` closed over `sample_env`, which does not
bind `nope`. -/
theorem on_list_end_null_result_witness :
    eval sample_env (mk_symbol "nope")
      = some (none, { dict := sample_env.dict ++ [("nope", none)] })
    ∧ ∃ e, mk_symbol "nope" = some e
      ∧ Interpreter.on_list_end sample_host
          { env := sample_env, stack := [[mk_symbol "nope", mk_value (Pod.i_ 1)], []],
            convert_atom := default_atom_convert }
        = Outcome.threw
            (Exn.cor_Error ("Got null evaluating " ++ e.value ++ ", expecting function"))
            { env := { dict := sample_env.dict ++ [("nope", none)] },
              stack := [[mk_symbol "nope", mk_value (Pod.i_ 1)], []],
              convert_atom := default_atom_convert }
      ∧ Interpreter.on_list_end sample_failing_host
          { env := sample_env, stack := [[mk_symbol "nope", mk_value (Pod.i_ 1)], []],
            convert_atom := default_atom_convert }
        = Interpreter.on_list_end sample_host
          { env := sample_env, stack := [[mk_symbol "nope", mk_value (Pod.i_ 1)], []],
            convert_atom := default_atom_convert } :=
  ⟨by decide,
    on_list_end_null_result sample_host sample_failing_host sample_env
      { dict := sample_env.dict ++ [("nope", none)] } default_atom_convert
      (mk_symbol "nope") [mk_value (Pod.i_ 1)] [[]] (by decide)⟩

/-- C13: let the head of a non-empty top sequence evaluate to a non-null
value `p`. When the type of `p` is not `Function`, `on_list_end` throws the
`std::logic_error` "Not a function" (the spec's `NotCallable`) with the
stack as it was, whatever the host callables are. When the type of `p` is
`Function`, every exception out of `on_list_end` is what the `catch` block
makes of one the host callable of `p` threw, after the head was taken off
the top sequence; so the outcome is never the `NotCallable` one. -/
theorem on_list_end_not_callable (host host1 : Host) (env env1 : Env)
    (conv : String → expr_ptr) (h : expr_ptr) (p : Expr) (args : expr_list_type)
    (below : List expr_list_type)
    (hh : eval env h = some (some p, env1)) :
    (p.type ≠ ExprType.Function →
      Interpreter.on_list_end host
          { env := env, stack := (h :: args) :: below, convert_atom := conv }
        = Outcome.threw (Exn.logic_error "Not a function")
            { env := env1, stack := (h :: args) :: below, convert_atom := conv }
      ∧ Interpreter.on_list_end host1
          { env := env, stack := (h :: args) :: below, convert_atom := conv }
        = Interpreter.on_list_end host
          { env := env, stack := (h :: args) :: below, convert_atom := conv })
    ∧ (p.type = ExprType.Function →
      (∀ e it1,
        Interpreter.on_list_end host
          { env := env, stack := (h :: args) :: below, convert_atom := conv }
          = Outcome.threw e it1 →
        ∃ name fn params env2 env3 e0, p = Expr.LambdaExpr name fn
          ∧ eval_list env1 args = some (params, env2)
          ∧ host fn env2 params = HostResult.raise e0 env3
          ∧ e = catch_rethrow e0
          ∧ it1.stack = args :: below)
      ∧ Interpreter.on_list_end host
          { env := env, stack := (h :: args) :: below, convert_atom := conv }
        ≠ Outcome.threw (Exn.logic_error "Not a function")
            { env := env1, stack := (h :: args) :: below, convert_atom := conv }) := by
  constructor
  · intro hp
    refine ⟨on_list_end_head_other host env env1 conv h p args below hh hp, ?_⟩
    rw [on_list_end_head_other host env env1 conv h p args below hh hp,
      on_list_end_head_other host1 env env1 conv h p args below hh hp]
  · intro hp
    refine ⟨fun e it1 ht =>
      on_list_end_function_threw host env env1 conv h p args below hh hp e it1 ht, ?_⟩
    intro ht
    obtain ⟨_, _, _, _, _, _, _, _, _, _, hst⟩ :=
      on_list_end_function_threw host env env1 conv h p args below hh hp _ _ ht
    have hlen := congrArg (fun st => (st.headD []).length) hst
    simp at hlen

/-- Witness of C13: `("greeting" 1)` and `(12 1)` over `sample_env` are not
callable. -/
theorem on_list_end_not_callable_witness :
    eval sample_env (mk_string "greeting")
      = some (some (Expr.BasicExpr ExprType.String "greeting"), sample_env)
    ∧ Interpreter.on_list_end sample_host
        { env := sample_env, stack := [[mk_string "greeting", mk_value (Pod.i_ 1)], []],
          convert_atom := default_atom_convert }
      = Outcome.threw (Exn.logic_error "Not a function")
          { env := sample_env, stack := [[mk_string "greeting", mk_value (Pod.i_ 1)], []],
            convert_atom := default_atom_convert }
    ∧ Interpreter.on_list_end sample_host
        { env := sample_env, stack := [[mk_value (Pod.i_ 12), mk_value (Pod.i_ 1)], []],
          convert_atom := default_atom_convert }
      = Outcome.threw (Exn.logic_error "Not a function")
          { env := sample_env, stack := [[mk_value (Pod.i_ 12), mk_value (Pod.i_ 1)], []],
            convert_atom := default_atom_convert } :=
  ⟨rfl,
    ((on_list_end_not_callable sample_host sample_host sample_env sample_env
      default_atom_convert (mk_string "greeting") (Expr.BasicExpr ExprType.String "greeting")
      [mk_value (Pod.i_ 1)] [[]] rfl).1 (by decide)).1,
    ((on_list_end_not_callable sample_host sample_host sample_env sample_env
      default_atom_convert (mk_value (Pod.i_ 12)) (Expr.PodExpr (Pod.i_ 12))
      [mk_value (Pod.i_ 1)] [[]] rfl).1 (by decide)).1⟩

/-- C17: a host callable that throws an exception of a class derived from
`cor::Error` (here `TypeError` with the message `boom`, on `(+ 1 2)`):
`on_list_end` leaves the stack with its depth and lower sequence and with
the top sequence `1 2`, the head gone; but what it throws
is a plain `cor::Error` of that message, the copy `throw e;` makes, not the
exception the callable threw. -/
theorem on_list_end_rethrow_sliced :
    sample_derived_host 0 sample_env
        [some (Expr.PodExpr (Pod.i_ 1)), some (Expr.PodExpr (Pod.i_ 2))]
      = HostResult.raise (Exn.derived "TypeError" "boom") sample_env
    ∧ Interpreter.on_list_end sample_derived_host
        { env := sample_env,
          stack := [[some (Expr.SymbolExpr "+"), some (Expr.PodExpr (Pod.i_ 1)),
            some (Expr.PodExpr (Pod.i_ 2))], [some (Expr.BasicExpr ExprType.Nil "")]],
          convert_atom := default_atom_convert }
      = Outcome.threw (Exn.cor_Error "boom")
          { env := sample_env,
            stack := [[some (Expr.PodExpr (Pod.i_ 1)), some (Expr.PodExpr (Pod.i_ 2))],
              [some (Expr.BasicExpr ExprType.Nil "")]],
            convert_atom := default_atom_convert }
    ∧ Exn.cor_Error "boom" ≠ Exn.derived "TypeError" "boom" :=
  ⟨rfl, rfl, by decide⟩

/-! ### The argument accessor -/

/-- `k` calls of `required` in a row with a conversion that never throws:
when `k` elements remain, the calls fold the conversion over the first `k`
of them, in their order, and leave the cursor behind them. -/
theorem required_times_ok {T : Type} (fn : expr_ptr → T → Call T Unit)
    (g : T → expr_ptr → T) (hfn : ∀ x d, fn x d = Call.ret () (g d x)) :
    ∀ (k : Nat) (args : expr_list_type) (dst : T), k ≤ args.length →
      required_times fn k { cur := args } dst
        = Access.ret () { cur := args.drop k } ((args.take k).foldl g dst) := by
  intro k
  induction k with
  | zero => intro args dst _; rfl
  | succ k ih =>
    intro args dst hk
    cases args with
    | nil => simp at hk
    | cons x xs =>
      simp only [required_times, ListAccessor.required, hfn]
      rw [ih xs (g dst x) (by simpa using hk)]
      rfl

/-- C14: on an exhausted cursor `required` throws the `cor::Error`
"Required param is absent" (the spec's `MissingRequiredArgument`) whatever
`fn` is, with the cursor and `dst` as they were; otherwise its outcome is
that of the one call of `fn` on the element at the cursor and the given
`dst`, with the cursor one element further; so `k` calls in a row on at
least `k` elements, with an `fn` that does not throw, apply `fn` to the
first `k` elements in their order. -/
theorem required_spec {T : Type} (fn : expr_ptr → T → Call T Unit) (dst : T) :
    (∀ fn1 : expr_ptr → T → Call T Unit,
      ListAccessor.required { cur := [] } fn1 dst
        = Access.raise (Exn.cor_Error "Required param is absent") { cur := [] } dst)
    ∧ (∀ x xs d, fn x dst = Call.ret () d →
      ListAccessor.required { cur := x :: xs } fn dst = Access.ret () { cur := xs } d)
    ∧ (∀ x xs e d, fn x dst = Call.raise e d →
      ListAccessor.required { cur := x :: xs } fn dst = Access.raise e { cur := xs } d)
    ∧ (∀ g : T → expr_ptr → T, (∀ x d, fn x d = Call.ret () (g d x)) →
      ∀ (k : Nat) (args : expr_list_type), k ≤ args.length →
        required_times fn k { cur := args } dst
          = Access.ret () { cur := args.drop k } ((args.take k).foldl g dst)) := by
  refine ⟨fun _ => rfl, ?_, ?_, ?_⟩
  · intro x xs d h
    simp only [ListAccessor.required, h]
  · intro x xs e d h
    simp only [ListAccessor.required, h]
  · intro g hg k args hk
    exact required_times_ok fn g hg k args dst hk

/-- Witness of C14: `to_string` required of a string and of nothing, and
two calls in a row that collect the first two of three elements. -/
theorem required_spec_witness :
    ListAccessor.required { cur := [mk_string "a", mk_nil] } to_string ""
      = Access.ret () { cur := [mk_nil] } "a"
    ∧ ListAccessor.required { cur := [] } to_string "old"
      = Access.raise (Exn.cor_Error "Required param is absent") { cur := [] } "old"
    ∧ required_times sample_collect 2
        { cur := [mk_string "a", mk_nil, mk_value (Pod.i_ 3)] } []
      = Access.ret () { cur := [mk_value (Pod.i_ 3)] } [mk_string "a", mk_nil] :=
  ⟨(required_spec to_string "").2.1 (mk_string "a") [mk_nil] "a" rfl,
   (required_spec to_string "old").1 to_string,
   (required_spec sample_collect []).2.2.2 (fun d x => d ++ [x]) (fun _ _ => rfl) 2
     [mk_string "a", mk_nil, mk_value (Pod.i_ 3)] (by decide)⟩

/-- C15: on an exhausted cursor `optional` returns false whatever `fn` is,
with the cursor and the state of `fn` as they were; otherwise it returns
what the one call of `fn` on the element at the cursor returns, true or
false, with the cursor one element further. -/
theorem optional_spec {σ : Type} (fn : expr_ptr → σ → Call σ Bool) (s : σ) :
    (∀ fn1 : expr_ptr → σ → Call σ Bool,
      ListAccessor.optional { cur := [] } fn1 s = Access.ret false { cur := [] } s)
    ∧ (∀ x xs b s1, fn x s = Call.ret b s1 →
      ListAccessor.optional { cur := x :: xs } fn s = Access.ret b { cur := xs } s1) := by
  refine ⟨fun _ => rfl, ?_⟩
  intro x xs b s1 h
  simp only [ListAccessor.optional, h]

/-- Witness of C15: `sample_consumer` on a string (true), on a null
pointer (false) and on nothing. -/
theorem optional_spec_witness :
    ListAccessor.optional { cur := [mk_string "a", mk_nil] } sample_consumer []
      = Access.ret true { cur := [mk_nil] } [mk_string "a"]
    ∧ ListAccessor.optional { cur := [none, mk_nil] } sample_consumer []
      = Access.ret false { cur := [mk_nil] } [none]
    ∧ ListAccessor.optional { cur := [] } sample_consumer [mk_nil]
      = Access.ret false { cur := [] } [mk_nil] :=
  ⟨(optional_spec sample_consumer []).2 (mk_string "a") [mk_nil] true [mk_string "a"] rfl,
   (optional_spec sample_consumer []).2 none [mk_nil] false [none] rfl,
   (optional_spec sample_consumer [mk_nil]).1 sample_consumer⟩

/-- The loop equation of `rest`: one call of `optional`, then `rest` again
when it returned true. -/
theorem rest_while {σ : Type} (fn : expr_ptr → σ → Call σ Bool) (src : ListAccessor) (s : σ) :
    rest src fn s =
      match src.optional fn s with
      | Access.ret true src1 s1 => rest src1 fn s1
      | Access.ret false src1 s1 => Access.ret () src1 s1
      | Access.raise e src1 s1 => Access.raise e src1 s1 := by
  obtain ⟨cur⟩ := src
  cases cur with
  | nil => rfl
  | cons x xs =>
    simp only [rest, rest_loop, ListAccessor.optional]
    cases hfn : fn x s with
    | ret b s1 => cases b <;> rfl
    | raise e s1 => rfl

/-- `rest_casted<T>` over elements that are all instances of `T`, followed
by `tail`, with a sink that does not throw: the sink runs on each of the
elements in their order, and the loop goes on with `tail`. -/
theorem rest_casted_initial {σ : Type} (T : Expr → Bool) (g : σ → Expr → σ)
    (tail : expr_list_type) :
    ∀ (pre : expr_list_type) (s : σ), (∀ r ∈ pre, ∃ e, r = some e ∧ T e = true) →
      rest_casted T { cur := pre ++ tail } (fun x s => Call.ret () (g s x)) s
        = rest_casted T { cur := tail } (fun x s => Call.ret () (g s x))
            ((present pre).foldl g s) := by
  intro pre
  induction pre with
  | nil => intro s _; rfl
  | cons r rs ih =>
    intro s h
    obtain ⟨e, he, hT⟩ := h r (List.mem_cons_self r rs)
    subst he
    have := ih (g s e) (fun r hr => h r (List.mem_cons_of_mem _ hr))
    simp only [rest_casted, rest] at this ⊢
    simp only [List.cons_append, rest_loop, casted_consumer, dynamic_pointer_cast, hT,
      ↓reduceIte, present, List.filterMap_cons, id_eq, List.foldl_cons]
    exact this

/-- C16: with a sink that does not throw: when every remaining element is
a non-null instance of `T`, `rest_casted<T>` returns, having run the sink on
each remaining element in their order, and the cursor is exhausted; when
the remaining elements are `pre`, all non-null instances of `T`, then `bad`,
null or not an instance of `T`, then `post`, it throws the `cor::Error`
"Can't be casted" (the spec's `InvalidArgumentType`) having run the sink on
the elements of `pre` in their order and on nothing else. -/
theorem rest_casted_spec {σ : Type} (T : Expr → Bool) (g : σ → Expr → σ) (s : σ) :
    (∀ rs : expr_list_type, (∀ r ∈ rs, ∃ e, r = some e ∧ T e = true) →
      rest_casted T { cur := rs } (fun x s => Call.ret () (g s x)) s
        = Access.ret () { cur := [] } ((present rs).foldl g s))
    ∧ (∀ (pre : expr_list_type) (bad : expr_ptr) (post : expr_list_type),
      (∀ r ∈ pre, ∃ e, r = some e ∧ T e = true) →
      (bad = none ∨ ∃ e, bad = some e ∧ T e = false) →
      rest_casted T { cur := pre ++ bad :: post } (fun x s => Call.ret () (g s x)) s
        = Access.raise (Exn.cor_Error "Can't be casted") { cur := post }
            ((present pre).foldl g s)) := by
  constructor
  · intro rs h
    have := rest_casted_initial T g [] rs s h
    rw [List.append_nil] at this
    rw [this]
    rfl
  · intro pre bad post h hbad
    rw [rest_casted_initial T g (bad :: post) pre s h]
    rcases hbad with hb | ⟨e, hb, hT⟩
    · subst hb
      rfl
    · subst hb
      simp only [rest_casted, rest, rest_loop, casted_consumer, dynamic_pointer_cast, hT]
      rfl

/-- Witness of C16: lambdas drained by `rest_casted<LambdaExpr>`, and a
string among them that stops the drain. -/
theorem rest_casted_spec_witness :
    rest_casted is_LambdaExpr { cur := [mk_lambda "f" 0, mk_lambda "g" 1] } sample_sink []
      = Access.ret () { cur := [] } [Expr.LambdaExpr "f" 0, Expr.LambdaExpr "g" 1]
    ∧ rest_casted is_LambdaExpr
        { cur := [mk_lambda "f" 0, mk_string "x", mk_lambda "g" 1] } sample_sink []
      = Access.raise (Exn.cor_Error "Can't be casted") { cur := [mk_lambda "g" 1] }
          [Expr.LambdaExpr "f" 0]
    ∧ rest_casted is_LambdaExpr
        { cur := [mk_lambda "f" 0, none, mk_lambda "g" 1] } sample_sink []
      = Access.raise (Exn.cor_Error "Can't be casted") { cur := [mk_lambda "g" 1] }
          [Expr.LambdaExpr "f" 0] :=
  ⟨(rest_casted_spec is_LambdaExpr (fun s x => s ++ [x]) []).1
      [mk_lambda "f" 0, mk_lambda "g" 1] (by simp [mk_lambda, is_LambdaExpr]),
   (rest_casted_spec is_LambdaExpr (fun s x => s ++ [x]) []).2
      [mk_lambda "f" 0] (mk_string "x") [mk_lambda "g" 1]
      (by simp [mk_lambda, is_LambdaExpr])
      (Or.inr ⟨Expr.BasicExpr ExprType.String "x", rfl, rfl⟩),
   (rest_casted_spec is_LambdaExpr (fun s x => s ++ [x]) []).2
      [mk_lambda "f" 0] none [mk_lambda "g" 1]
      (by simp [mk_lambda, is_LambdaExpr]) (Or.inl rfl)⟩

/-! ### Saturation and the empty text -/

/-- `strtol` on a non-empty sequence of digits behind a plus sign: every
character is consumed, and the value is the number or `LONG_MAX`. -/
theorem strtol_plus_digits (l : List Char) (hne : l ≠ [])
    (hd : ∀ c ∈ l, c.isDigit = true) :
    strtol ('+' :: l) = (min (digits_value 10 l : Int) LONG_MAX, l.length + 1) := by
  have htw : List.takeWhile Char.isDigit l = l := List.takeWhile_eq_self_iff.mpr hd
  have hm : isspace '+' = false := by decide
  have hws : List.takeWhile isspace ('+' :: l) = [] := by
    simp [List.takeWhile_cons, hm]
  have hdw : List.dropWhile isspace ('+' :: l) = '+' :: l := by
    simp [List.dropWhile_cons, hm]
  have hsign : strto_sign ('+' :: l) = (false, 1, l) := rfl
  simp only [strtol, hws, hdw, hsign, htw]
  simp [hne]
  omega

/-- A text made of an optional sign and digits that `strtol` consumes: the
classifier returns the `long` of `strtol`. -/
theorem default_atom_convert_signed_digits (sign l : List Char)
    (hsign : sign = [] ∨ sign = ['+'] ∨ sign = ['-'])
    (hne : l ≠ []) (hd : ∀ c ∈ l, c.isDigit = true) :
    default_atom_convert (String.mk (sign ++ l))
      = mk_value (Pod.i_ (strtol (sign ++ l)).1)
    ∧ (strtol (sign ++ l)).2 = (sign ++ l).length := by
  have hnul : ∀ c ∈ (String.mk (sign ++ l)).data, (c != '\x00') = true := by
    intro c hc
    rcases List.mem_append.mp hc with h | h
    · rcases hsign with hs | hs | hs <;> subst hs
      · simp at h
      · simp only [List.mem_singleton] at h; subst h; decide
      · simp only [List.mem_singleton] at h; subst h; decide
    · exact (isDigit_facts c (hd c h)).2.2.2.1
  have hlen : (strtol (sign ++ l)).2 = (sign ++ l).length := by
    rcases hsign with hs | hs | hs <;> subst hs
    · rw [List.nil_append, (strtol_digits l hne hd).1]
    · rw [List.singleton_append, strtol_plus_digits l hne hd]; simp
    · rw [List.singleton_append, (strtol_digits l hne hd).2]; simp
  have hcolon : (String.mk (sign ++ l)).data.head? ≠ some ':' := by
    obtain ⟨c, cs, hcs⟩ := List.exists_cons_of_ne_nil hne
    have hc := (isDigit_facts c (hd c (by rw [hcs]; exact List.mem_cons_self c cs))).2.2.2.2
    rcases hsign with hs | hs | hs <;> subst hs
    · subst hcs; simpa using hc
    · simp
    · simp
  have hcs : c_str (String.mk (sign ++ l)) = sign ++ l := c_str_eq _ hnul
  refine ⟨?_, hlen⟩
  rw [default_atom_convert_of_strtol _ hcolon (by rw [hcs]; exact hlen), hcs]

/-- C18: for a non-empty sequence of decimal digits, alone or behind a
sign, `strtol` consumes the whole text, so the classifier returns a
`PodExpr` holding a `long`, of type `Integer` and not a `Real` or a
`Symbol`: `2^63 - 1` when the digits (alone or behind `+`) denote a number
above `2^63 - 1`, `-2^63` when behind `-` they denote a number below
`-2^63`. -/
theorem default_atom_convert_saturates (l : List Char) (hne : l ≠ [])
    (hd : ∀ c ∈ l, c.isDigit = true) :
    ((2 ^ 63 - 1 : Int) < (digits_value 10 l : Int) →
      default_atom_convert (String.mk l) = some (Expr.PodExpr (Pod.i_ (2 ^ 63 - 1)))
      ∧ default_atom_convert (String.mk ('+' :: l))
        = some (Expr.PodExpr (Pod.i_ (2 ^ 63 - 1)))
      ∧ (default_atom_convert (String.mk l)).map Expr.type = some ExprType.Integer
      ∧ (default_atom_convert (String.mk ('+' :: l))).map Expr.type
        = some ExprType.Integer)
    ∧ (-(digits_value 10 l : Int) < -(2 ^ 63) →
      default_atom_convert (String.mk ('-' :: l)) = some (Expr.PodExpr (Pod.i_ (-(2 ^ 63))))
      ∧ (default_atom_convert (String.mk ('-' :: l))).map Expr.type
        = some ExprType.Integer)
    ∧ (strtol l).2 = l.length
    ∧ (strtol ('+' :: l)).2 = ('+' :: l).length
    ∧ (strtol ('-' :: l)).2 = ('-' :: l).length := by
  have h0 := default_atom_convert_signed_digits [] l (Or.inl rfl) hne hd
  have h1 := default_atom_convert_signed_digits ['+'] l (Or.inr (Or.inl rfl)) hne hd
  have h2 := default_atom_convert_signed_digits ['-'] l (Or.inr (Or.inr rfl)) hne hd
  simp only [List.nil_append, List.singleton_append] at h0 h1 h2
  refine ⟨?_, ?_, h0.2, h1.2, h2.2⟩
  · intro hbig
    have hbig1 : LONG_MAX < (digits_value 10 l : Int) := hbig
    have e0 : default_atom_convert (String.mk l)
        = some (Expr.PodExpr (Pod.i_ (2 ^ 63 - 1))) := by
      rw [h0.1, (strtol_digits l hne hd).1]
      dsimp only
      rw [min_eq_right (le_of_lt hbig1)]
      rfl
    have e1 : default_atom_convert (String.mk ('+' :: l))
        = some (Expr.PodExpr (Pod.i_ (2 ^ 63 - 1))) := by
      rw [h1.1, strtol_plus_digits l hne hd]
      dsimp only
      rw [min_eq_right (le_of_lt hbig1)]
      rfl
    rw [e0, e1]
    exact ⟨rfl, rfl, rfl, rfl⟩
  · intro hsmall
    have hsmall1 : -(digits_value 10 l : Int) < LONG_MIN := hsmall
    have e2 : default_atom_convert (String.mk ('-' :: l))
        = some (Expr.PodExpr (Pod.i_ (-(2 ^ 63)))) := by
      rw [h2.1, (strtol_digits l hne hd).2]
      dsimp only
      rw [max_eq_right (le_of_lt hsmall1)]
      rfl
    rw [e2]
    exact ⟨rfl, rfl⟩

/-- Witness of C18: `9223372036854775808`, `+99999999999999999999` and
`-9223372036854775809`. -/
theorem default_atom_convert_saturates_witness :
    default_atom_convert "9223372036854775808"
      = some (Expr.PodExpr (Pod.i_ 9223372036854775807))
    ∧ default_atom_convert "+99999999999999999999"
      = some (Expr.PodExpr (Pod.i_ 9223372036854775807))
    ∧ default_atom_convert "-9223372036854775809"
      = some (Expr.PodExpr (Pod.i_ (-9223372036854775808))) :=
  ⟨((default_atom_convert_saturates "9223372036854775808".data (by decide) (by decide)).1
      (by decide)).1,
   ((default_atom_convert_saturates "99999999999999999999".data (by decide) (by decide)).1
      (by decide)).2.1,
   ((default_atom_convert_saturates "9223372036854775809".data (by decide) (by decide)).2.1
      (by decide)).1⟩

/-- C19: on the empty text `strtol` consumes zero characters, the whole
text, and `default_atom_convert` returns the `PodExpr` whose `long` is 0, of
type `Integer`, which is neither the symbol of the empty name nor the
`Nil` value of `mk_nil()`. -/
theorem default_atom_convert_empty :
    default_atom_convert "" = some (Expr.PodExpr (Pod.i_ 0))
    ∧ (default_atom_convert "").map Expr.type = some ExprType.Integer
    ∧ (strtol (c_str "")).2 = "".data.length
    ∧ (strtol (c_str "")).2 = 0
    ∧ default_atom_convert "" ≠ some (Expr.SymbolExpr "")
    ∧ default_atom_convert "" ≠ some (Expr.BasicExpr ExprType.Nil "") := by
  decide

end notlisp

namespace udevpp

/-- The loop over a non-empty `caps_strs` returns false from the function
in its first round. -/
theorem read_caps_cons {σ : Type} (lib : Lib σ) (input : σ) (s : String) (ss : List String) :
    read_caps lib input (s :: ss) = none := by
  simp [read_caps]

/-- C20: `is_keyboard` returns false for every device, whatever
`cor::split`, `std::remove` and the stream extraction do: without the
attribute and with no string out of the split by the two early returns,
otherwise by the first round of the loop, where `is_ok` is false. -/
theorem is_keyboard_false {σ : Type} (lib : Lib σ) (dev : Device) :
    is_keyboard lib dev = some false := by
  unfold is_keyboard
  cases dev.attr "capabilities/key" with
  | none => rfl
  | some key =>
    dsimp only
    split
    · rfl
    · rename_i hne
      cases hcs : std_remove lib (lib.split key " ") with
      | nil => rw [hcs] at hne; simp at hne
      | cons s ss => rw [read_caps_cons]

end udevpp

end cor
